import Mathlib

/-!
Shallow embedding of `input_windows.go` from the gonutz/input repository.

Strings are modelled as `List Char` (Go iterates strings rune by rune with
`for _, r := range s`; `int(r)` is the rune's code point, `Char.toNat` here).
The OS boundary is modelled by explicit parameters:
  * `accept : Nat → Bool` — the result of the k-th `w32.SendInput` call of a
    run (`true` means a non-zero number of accepted events, `false` means the
    call returned 0);
  * `toScanCode : Nat → Nat` — `w32.MapVirtualKey(vk, MAPVK_VK_TO_VSC)`;
  * cursor and clipboard state records further below.
Submitted event batches are collected as lists instead of being injected.
-/

/-- Win32 flag `KEYEVENTF_KEYUP`. -/
def KEYEVENTF_KEYUP : Nat := 2

/-- Win32 flag `KEYEVENTF_SCANCODE`. -/
def KEYEVENTF_SCANCODE : Nat := 8

/-- Win32 flag `MOUSEEVENTF_LEFTDOWN`. -/
def MOUSEEVENTF_LEFTDOWN : Nat := 2

/-- Win32 flag `MOUSEEVENTF_LEFTUP`. -/
def MOUSEEVENTF_LEFTUP : Nat := 4

/-- Win32 flag `MOUSEEVENTF_RIGHTDOWN`. -/
def MOUSEEVENTF_RIGHTDOWN : Nat := 8

/-- Win32 flag `MOUSEEVENTF_RIGHTUP`. -/
def MOUSEEVENTF_RIGHTUP : Nat := 16

/-- Win32 flag `MOUSEEVENTF_MIDDLEDOWN`. -/
def MOUSEEVENTF_MIDDLEDOWN : Nat := 32

/-- Win32 flag `MOUSEEVENTF_MIDDLEUP`. -/
def MOUSEEVENTF_MIDDLEUP : Nat := 64

/-- Win32 virtual key `VK_LMENU` (left Alt), 0xA4. -/
def VK_LMENU : Nat := 164

/-- Win32 virtual key `VK_NUMPAD0`, 0x60; `VK_NUMPAD0 .. VK_NUMPAD9` are the
consecutive codes 96..105. -/
def VK_NUMPAD0 : Nat := 96

/-- Win32 virtual key `VK_RETURN`, 0x0D. -/
def VK_RETURN : Nat := 13

/-- Win32 virtual key `VK_BACK`, 0x08. -/
def VK_BACK : Nat := 8

/-- The fields of `w32.KEYBDINPUT` used by this library. -/
structure KEYBDINPUT where
  Vk : Nat
  Scan : Nat
  Flags : Nat
deriving DecidableEq

/-- A `w32.INPUT` record: either a keyboard event (`w32.KeyboardInput`) or a
mouse event (`w32.MouseInput`, of which only the `Flags` field is ever set). -/
inductive INPUT where
  | keyboard (k : KEYBDINPUT)
  | mouse (flags : Nat)
deriving DecidableEq

/-- The sentinel errors of the library (`ErrBlocked`, `ErrGetCursorFailed`,
`ErrSetCursorFailed`). -/
inductive Err where
  | blocked
  | getCursorFailed
  | setCursorFailed
deriving DecidableEq

/-- Model of `upDown(vk)` in `TypeWithDelay`: the key-down and key-up `INPUT` pair for
a virtual key, addressed by scan code (both events carry
`toScanCode vk` and the `KEYEVENTF_SCANCODE` flag; the up event adds
`KEYEVENTF_KEYUP`; the flag bits 8 and 2 are disjoint, so bitwise or is
addition). -/
def upDown (toScanCode : Nat → Nat) (vk : Nat) : INPUT × INPUT :=
  (INPUT.keyboard ⟨0, toScanCode vk, KEYEVENTF_SCANCODE⟩,
   INPUT.keyboard ⟨0, toScanCode vk, KEYEVENTF_SCANCODE + KEYEVENTF_KEYUP⟩)

/-- Model of `alt := upDown(w32.VK_LMENU)` in `TypeWithDelay`. -/
def altPair (toScanCode : Nat → Nat) : INPUT × INPUT :=
  upDown toScanCode VK_LMENU

/-- Model of `nums[d]` in `TypeWithDelay`: the table entries `upDown(w32.VK_NUMPAD0)`
through `upDown(w32.VK_NUMPAD9)`; since those virtual keys are the consecutive
codes 96..105, entry `d` is `upDown (VK_NUMPAD0 + d)`. -/
def numPair (toScanCode : Nat → Nat) (d : Nat) : INPUT × INPUT :=
  upDown toScanCode (VK_NUMPAD0 + d)

/-- Decimal digits of `n`, most significant first, with `fuel` bounding the
recursion depth (any `fuel ≥ n` is enough). -/
def digitsFuel : Nat → Nat → List Nat
  | _, 0 => []
  | 0, _ + 1 => []
  | fuel + 1, n + 1 => digitsFuel fuel ((n + 1) / 10) ++ [(n + 1) % 10]

/-- The digits of `fmt.Sprint(n)` for a non-negative integer `n`: decimal
digits, most significant first, no leading zeros, and `[0]` for `n = 0`. -/
def sprintDigits (n : Nat) : List Nat :=
  if n = 0 then [0] else digitsFuel n n

/-- The `for _, digit := range fmt.Sprint(int(r))` loop body of
`TypeWithDelay`, flattened: the numpad down/up pairs for a digit list. -/
def digitPairs (toScanCode : Nat → Nat) : List Nat → List INPUT
  | [] => []
  | d :: ds =>
    (numPair toScanCode d).1 :: (numPair toScanCode d).2 ::
      digitPairs toScanCode ds

/-- The batch `TypeWithDelay` submits for one character that is neither `'\r'`
nor backspace: starting from `keys[:3] = [alt down, Numpad0 down, Numpad0 up]`,
append a numpad down/up pair per decimal digit of the character's code, then
append the alt up event. -/
def charBatch (toScanCode : Nat → Nat) (r : Char) : List INPUT :=
  let init := [(altPair toScanCode).1,
               (numPair toScanCode 0).1, (numPair toScanCode 0).2]
  let keys := (sprintDigits r.toNat).foldl
    (fun ks d => ks ++ [(numPair toScanCode d).1, (numPair toScanCode d).2])
    init
  keys ++ [(altPair toScanCode).2]

/-- The two-event batch `PressKey(key)` submits: a key-down and a key-up
addressed by virtual key code. -/
def pressKeyBatch (key : Nat) : List INPUT :=
  [INPUT.keyboard ⟨key, 0, 0⟩, INPUT.keyboard ⟨key, 0, KEYEVENTF_KEYUP⟩]

/-- The batch `TypeWithDelay` submits for one normalized character: `'\r'` is
typed via `PressKey(w32.VK_RETURN)`, backspace (`'\x08'`) via
`PressKey(w32.VK_BACK)`, everything else via the Alt+Numpad batch. -/
def charBatchFor (toScanCode : Nat → Nat) (r : Char) : List INPUT :=
  if r = '\r' then pressKeyBatch VK_RETURN
  else if r = '\x08' then pressKeyBatch VK_BACK
  else charBatch toScanCode r

/-- Model of `strings.Replace(s, "\r\n", "\r", -1)`: replace every (leftmost-first,
non-overlapping) occurrence of the two-character pattern CR LF by CR. -/
def replaceCRLF : List Char → List Char
  | [] => []
  | [c] => [c]
  | c1 :: c2 :: rest =>
    if c1 = '\r' ∧ c2 = '\n' then '\r' :: replaceCRLF rest
    else c1 :: replaceCRLF (c2 :: rest)

/-- Model of `strings.Replace(s, "\n", "\r", -1)`: replace every LF by CR. -/
def replaceLF (s : List Char) : List Char :=
  s.map fun c => if c = '\n' then '\r' else c

/-- The line-break normalization of `TypeWithDelay`: first collapse CR LF to
CR, then turn every remaining LF into CR. -/
def normalizeLineBreaks (s : List Char) : List Char :=
  replaceLF (replaceCRLF s)

/-- The per-character loop of `TypeWithDelay` over the normalized string.
`k` is the index of the next `SendInput` call (each character issues exactly
one `SendInput` call, either directly or inside `PressKey`). Returns the
batches submitted to `SendInput` in order, the number of `time.Sleep(delay)`
calls performed, and the error result (`none` for a nil error). A failed
`SendInput` returns before the sleep of that iteration. -/
def typeLoop (accept : Nat → Bool) (toScanCode : Nat → Nat) :
    List Char → Nat → List (List INPUT) × Nat × Option Err
  | [], _ => ([], 0, none)
  | r :: rest, k =>
    let batch := charBatchFor toScanCode r
    if accept k then
      let res := typeLoop accept toScanCode rest (k + 1)
      (batch :: res.1, res.2.1 + 1, res.2.2)
    else
      ([batch], 0, some Err.blocked)

/-- Model of `TypeWithDelay(s, delay)`: normalize line breaks, then run the
per-character loop starting at `SendInput` call index 0. The `delay` only
determines how long each of the counted sleeps lasts, never the structure of
the output. -/
def TypeWithDelay (accept : Nat → Bool) (toScanCode : Nat → Nat)
    (s : List Char) (delay : Nat) : List (List INPUT) × Nat × Option Err :=
  typeLoop accept toScanCode (normalizeLineBreaks s) 0

/-- Model of `Type(s)`, which is `TypeWithDelay(s, 1)`. -/
def Type' (accept : Nat → Bool) (toScanCode : Nat → Nat) (s : List Char) :
    List (List INPUT) × Nat × Option Err :=
  TypeWithDelay accept toScanCode s 1

/-- The four-event batch submitted by `LeftDoubleClick` (and, after the cursor
move, by `LeftDoubleClickAt`): left down, left up, left down, left up. -/
def leftDoubleClickBatch : List INPUT :=
  [INPUT.mouse MOUSEEVENTF_LEFTDOWN, INPUT.mouse MOUSEEVENTF_LEFTUP,
   INPUT.mouse MOUSEEVENTF_LEFTDOWN, INPUT.mouse MOUSEEVENTF_LEFTUP]

/-- For a down event, the matching up event; `none` for events that are
already up events (keyboard events with `KEYEVENTF_KEYUP` set, mouse up
flags). Bit 1 of the keyboard flags is `KEYEVENTF_KEYUP`, tested
arithmetically as `Flags / 2 % 2`. -/
def upEventOf : INPUT → Option INPUT
  | INPUT.keyboard k =>
    if k.Flags / KEYEVENTF_KEYUP % 2 = 1 then none
    else some (INPUT.keyboard ⟨k.Vk, k.Scan, k.Flags + KEYEVENTF_KEYUP⟩)
  | INPUT.mouse f =>
    if f = MOUSEEVENTF_LEFTDOWN then some (INPUT.mouse MOUSEEVENTF_LEFTUP)
    else if f = MOUSEEVENTF_RIGHTDOWN then
      some (INPUT.mouse MOUSEEVENTF_RIGHTUP)
    else if f = MOUSEEVENTF_MIDDLEDOWN then
      some (INPUT.mouse MOUSEEVENTF_MIDDLEUP)
    else none

/-- Predicate: `allDownsMatched batch` holds when every down event of the batch is
followed, later in the same batch, by its matching up event. -/
def allDownsMatched : List INPUT → Bool
  | [] => true
  | e :: rest =>
    (match upEventOf e with
     | some u => decide (u ∈ rest)
     | none => true) && allDownsMatched rest

/-- The batch the spec's words describe for the Alt+Numpad entry of one
character: Alt down, one numpad down/up pair per decimal digit of the code
(most significant first, leading-zero pairs skipped), Alt up. Written from
the spec for comparison with `charBatch`, which is written from the source. -/
def specAltNumpadBatch (toScanCode : Nat → Nat) (r : Char) : List INPUT :=
  (altPair toScanCode).1 ::
    (digitPairs toScanCode (sprintDigits r.toNat) ++ [(altPair toScanCode).2])

/-- The cursor-related OS state seen by one call: the result of
`w32.GetCursorPos` (`none` models failure) and the success of
`w32.SetCursorPos` at given coordinates. -/
structure CursorOS where
  getCursorPos : Option (Int × Int)
  setCursorPos : Int → Int → Bool

/-- Model of `MoveMouseBy(dx, dy)`: read the cursor position; on failure return
`ErrGetCursorFailed` without calling `SetCursorPos`; otherwise call
`SetCursorPos(x+dx, y+dy)` and return `ErrSetCursorFailed` exactly when it
fails. The second component records the coordinates of every `SetCursorPos`
call made. -/
def MoveMouseBy (os : CursorOS) (dx dy : Int) :
    Option Err × List (Int × Int) :=
  match os.getCursorPos with
  | none => (some Err.getCursorFailed, [])
  | some (x, y) =>
    if os.setCursorPos (x + dx) (y + dy) then (none, [(x + dx, y + dy)])
    else (some Err.setCursorFailed, [(x + dx, y + dy)])

/-- Decode a UTF-16 code unit sequence to characters, pairing surrogates as
Go's `utf16.Decode` (used by `syscall.UTF16ToString`) does; unpaired
surrogates decode to U+FFFD. -/
def utf16Decode : List Nat → List Char
  | [] => []
  | u :: rest =>
    if 0xD800 ≤ u ∧ u < 0xDC00 then
      match rest with
      | [] => [Char.ofNat 0xFFFD]
      | v :: rest2 =>
        if 0xDC00 ≤ v ∧ v < 0xE000 then
          Char.ofNat (0x10000 + (u - 0xD800) * 0x400 + (v - 0xDC00)) ::
            utf16Decode rest2
        else Char.ofNat 0xFFFD :: utf16Decode (v :: rest2)
    else if 0xDC00 ≤ u ∧ u < 0xE000 then
      Char.ofNat 0xFFFD :: utf16Decode rest
    else Char.ofNat u :: utf16Decode rest

/-- The clipboard state seen by `ClipboardText`: whether `w32.OpenClipboard`
succeeds, and the UTF-16 buffer behind the pointer `w32.GetClipboardData`
returns (`none` models a nil pointer, i.e. no `CF_UNICODETEXT` data). -/
structure ClipboardOS where
  openOk : Bool
  dataPtr : Option (List Nat)

/-- Model of `ClipboardText()`: `text` starts out empty; when the clipboard opens and
the data pointer is non-nil, read UTF-16 units up to the first 0 terminator
and decode them (`syscall.UTF16ToString`). Failures never surface: the
function's only result is the string. -/
def ClipboardText (os : ClipboardOS) : String :=
  if os.openOk then
    match os.dataPtr with
    | some mem => String.mk (utf16Decode (mem.takeWhile (· ≠ 0)))
    | none => ""
  else ""

/-- Encode one character as UTF-16 code units (Go `utf16.Encode`). -/
def utf16EncodeChar (c : Char) : List Nat :=
  if c.toNat < 0x10000 then [c.toNat]
  else [0xD800 + (c.toNat - 0x10000) / 0x400,
        0xDC00 + (c.toNat - 0x10000) % 0x400]

/-- Model of `syscall.StringToUTF16(text)`: the UTF-16 code units of the text followed
by a 0 terminator. -/
def stringToUTF16 (text : List Char) : List Nat :=
  (text.map utf16EncodeChar).flatten ++ [0]

/-- The clipboard operations `SetClipboardText` can perform, in order. -/
inductive ClipOp where
  | emptyClipboard
  | globalAlloc (bytes : Nat)
  | setData (units : List Nat)
  | closeClipboard
deriving DecidableEq

/-- Model of `SetClipboardText(text)`: when `w32.OpenClipboard` succeeds, empty the
clipboard, allocate a global buffer of `2 * len(data)` bytes, copy the
encoded text in, hand it to `w32.SetClipboardData`, and close the clipboard;
when it fails, do nothing at all. The function returns only the list of
clipboard operations performed — it has no error result. -/
def SetClipboardText (openOk : Bool) (text : List Char) : List ClipOp :=
  if openOk then
    [ClipOp.emptyClipboard,
     ClipOp.globalAlloc (2 * (stringToUTF16 text).length),
     ClipOp.setData (stringToUTF16 text),
     ClipOp.closeClipboard]
  else []

theorem foldl_digitPairs (toScanCode : Nat → Nat) (ds : List Nat)
    (init : List INPUT) :
    ds.foldl
      (fun ks d => ks ++ [(numPair toScanCode d).1, (numPair toScanCode d).2])
      init = init ++ digitPairs toScanCode ds := by
  induction ds generalizing init with
  | nil => simp [digitPairs]
  | cons d ds ih => simp [digitPairs, ih, List.append_assoc]

theorem charBatch_eq (toScanCode : Nat → Nat) (r : Char) :
    charBatch toScanCode r =
      (altPair toScanCode).1 ::
        (digitPairs toScanCode (0 :: sprintDigits r.toNat) ++
          [(altPair toScanCode).2]) := by
  simp [charBatch, foldl_digitPairs, digitPairs]

theorem upEventOf_upDown_down (toScanCode : Nat → Nat) (vk : Nat) :
    upEventOf (upDown toScanCode vk).1 = some (upDown toScanCode vk).2 := by
  simp [upEventOf, upDown, KEYEVENTF_SCANCODE, KEYEVENTF_KEYUP]

theorem upEventOf_upDown_up (toScanCode : Nat → Nat) (vk : Nat) :
    upEventOf (upDown toScanCode vk).2 = none := by
  simp [upEventOf, upDown, KEYEVENTF_SCANCODE, KEYEVENTF_KEYUP]

theorem upEventOf_numPair_down (toScanCode : Nat → Nat) (d : Nat) :
    upEventOf (numPair toScanCode d).1 = some (numPair toScanCode d).2 :=
  upEventOf_upDown_down toScanCode (VK_NUMPAD0 + d)

theorem upEventOf_numPair_up (toScanCode : Nat → Nat) (d : Nat) :
    upEventOf (numPair toScanCode d).2 = none :=
  upEventOf_upDown_up toScanCode (VK_NUMPAD0 + d)

theorem upEventOf_altPair_down (toScanCode : Nat → Nat) :
    upEventOf (altPair toScanCode).1 = some (altPair toScanCode).2 :=
  upEventOf_upDown_down toScanCode VK_LMENU

theorem upEventOf_altPair_up (toScanCode : Nat → Nat) :
    upEventOf (altPair toScanCode).2 = none :=
  upEventOf_upDown_up toScanCode VK_LMENU

theorem allDownsMatched_digitPairs (toScanCode : Nat → Nat) (ds : List Nat)
    (tail : List INPUT) (htail : allDownsMatched tail = true) :
    allDownsMatched (digitPairs toScanCode ds ++ tail) = true := by
  induction ds with
  | nil => simpa [digitPairs]
  | cons d ds ih =>
    simp [digitPairs, allDownsMatched, upEventOf_numPair_down,
      upEventOf_numPair_up, ih]

theorem allDownsMatched_charBatch (toScanCode : Nat → Nat) (r : Char) :
    allDownsMatched (charBatch toScanCode r) = true := by
  rw [charBatch_eq]
  have htail : allDownsMatched [(altPair toScanCode).2] = true := by
    simp [allDownsMatched, upEventOf_altPair_up]
  have hmid := allDownsMatched_digitPairs toScanCode
    (sprintDigits r.toNat) [(altPair toScanCode).2] htail
  simp [digitPairs, allDownsMatched, upEventOf_altPair_down,
    upEventOf_numPair_down, upEventOf_numPair_up, hmid, List.mem_append]

theorem allDownsMatched_pressKeyBatch (key : Nat) :
    allDownsMatched (pressKeyBatch key) = true := by
  simp [pressKeyBatch, allDownsMatched, upEventOf, KEYEVENTF_KEYUP]

/-- C1 (amended): for every character other than carriage return and
backspace, the batch `TypeWithDelay` submits is exactly: Alt(left-menu) down,
then a Numpad0 down/up pair, then one numpad down/up pair per decimal digit of
the character's code (most significant first, no leading zeros), then Alt up.
The claim as frozen omits the unconditional leading Numpad0 pair. -/
theorem typeWithDelay_altNumpad_batch (toScanCode : Nat → Nat) (r : Char)
    (h1 : r ≠ '\r') (h2 : r ≠ '\x08') :
    charBatchFor toScanCode r =
      (altPair toScanCode).1 ::
        (digitPairs toScanCode (0 :: sprintDigits r.toNat) ++
          [(altPair toScanCode).2]) := by
  rw [charBatchFor, if_neg h1, if_neg h2, charBatch_eq]

theorem typeWithDelay_altNumpad_batch_witness :
    ('A' ≠ '\r' ∧ 'A' ≠ '\x08') ∧
    charBatchFor id 'A' =
      (altPair id).1 ::
        (digitPairs id (0 :: sprintDigits 'A'.toNat) ++ [(altPair id).2]) :=
  ⟨by decide, typeWithDelay_altNumpad_batch id 'A' (by decide) (by decide)⟩

/-- C1 counterexample: at the character `'A'` (code 65) the batch the code
submits is not the batch the claim describes (Alt down, digit pairs with
leading-zero pairs skipped, Alt up): the code always emits a leading Numpad0
down/up pair first. -/
theorem typeWithDelay_altNumpad_claim_false :
    charBatchFor id 'A' ≠ specAltNumpadBatch id 'A' := by decide

/-- C2 counterexample: the printable ASCII digit `'7'` (virtual key code 55)
is not typed as the single down/up pair of its direct key: the submitted
batch is the eight-event Alt+Numpad batch. -/
theorem printable_direct_key_claim_false :
    charBatchFor id '7' ≠ pressKeyBatch 55 ∧
    (charBatchFor id '7').length = 8 := by decide

/-- C2 (amended): only carriage return and backspace are typed via direct
key presses (Enter via `VK_RETURN`, backspace via `VK_BACK`); every other
character of a one-character input — including printable ASCII such as
`'7'` — is typed via the Alt+Numpad batch. -/
theorem type_direct_keys_only_enter_backspace (accept : Nat → Bool)
    (toScanCode : Nat → Nat) (delay : Nat) (r : Char)
    (hacc : accept 0 = true) :
    (TypeWithDelay accept toScanCode ['\r'] delay).1 =
      [pressKeyBatch VK_RETURN] ∧
    (TypeWithDelay accept toScanCode ['\x08'] delay).1 =
      [pressKeyBatch VK_BACK] ∧
    (r ≠ '\r' → r ≠ '\n' → r ≠ '\x08' →
      (TypeWithDelay accept toScanCode [r] delay).1 =
        [charBatch toScanCode r]) := by
  refine ⟨?_, ?_, ?_⟩
  · simp [TypeWithDelay, normalizeLineBreaks, replaceCRLF, replaceLF,
      typeLoop, charBatchFor, hacc]
  · simp [TypeWithDelay, normalizeLineBreaks, replaceCRLF, replaceLF,
      typeLoop, charBatchFor, hacc]
  · intro hr hn hb
    simp [TypeWithDelay, normalizeLineBreaks, replaceCRLF, replaceLF,
      typeLoop, charBatchFor, hacc, hr, hn, hb]

theorem type_direct_keys_only_enter_backspace_witness :
    (fun _ : Nat => true) 0 = true ∧
    (TypeWithDelay (fun _ => true) id ['\r'] 1).1 =
      [pressKeyBatch VK_RETURN] :=
  ⟨rfl,
    (type_direct_keys_only_enter_backspace (fun _ => true) id 1 '7' rfl).1⟩

/-- C5: in every batch this library submits as one unit — the per-character
batch of `TypeWithDelay` (Alt+Numpad or a `PressKey` pair), any `PressKey`
batch, and the double-click batch — every key-down or button-down event is
followed later in the same batch by its matching up event. -/
theorem batches_leave_no_key_held (toScanCode : Nat → Nat) (r : Char)
    (key : Nat) :
    allDownsMatched (charBatchFor toScanCode r) = true ∧
    allDownsMatched (pressKeyBatch key) = true ∧
    allDownsMatched leftDoubleClickBatch = true := by
  refine ⟨?_, allDownsMatched_pressKeyBatch key, by decide⟩
  by_cases h1 : r = '\r'
  · rw [charBatchFor, if_pos h1]; exact allDownsMatched_pressKeyBatch _
  · by_cases h2 : r = '\x08'
    · rw [charBatchFor, if_neg h1, if_pos h2]
      exact allDownsMatched_pressKeyBatch _
    · rw [charBatchFor, if_neg h1, if_neg h2]
      exact allDownsMatched_charBatch toScanCode r

/-- C6: `MoveMouseBy` reads the cursor position first; if the read fails it
returns `ErrGetCursorFailed` and makes no `SetCursorPos` call; otherwise its
single `SetCursorPos` call is at `(x+dx, y+dy)` and the result is
`ErrSetCursorFailed` exactly when that call fails, nil otherwise. -/
theorem moveMouseBy_spec (os : CursorOS) (dx dy : Int) :
    (os.getCursorPos = none →
      MoveMouseBy os dx dy = (some Err.getCursorFailed, [])) ∧
    (∀ x y, os.getCursorPos = some (x, y) →
      (MoveMouseBy os dx dy).2 = [(x + dx, y + dy)] ∧
      (MoveMouseBy os dx dy).1 =
        if os.setCursorPos (x + dx) (y + dy) then none
        else some Err.setCursorFailed) := by
  constructor
  · intro h; simp [MoveMouseBy, h]
  · intro x y h
    by_cases hs : os.setCursorPos (x + dx) (y + dy) <;>
      simp [MoveMouseBy, h, hs]

theorem moveMouseBy_spec_witness :
    (⟨some (3, 4), fun _ _ => true⟩ : CursorOS).getCursorPos = some (3, 4) ∧
    (MoveMouseBy ⟨some (3, 4), fun _ _ => true⟩ 1 2).2 = [(4, 6)] :=
  ⟨rfl, by
    have h := (moveMouseBy_spec ⟨some (3, 4), fun _ _ => true⟩ 1 2).2 3 4 rfl
    simpa using h.1⟩

/-- C7: `ClipboardText` has no error result; whenever the clipboard cannot be
opened, holds no text data, or holds empty text (a buffer starting with the 0
terminator), it returns the empty string — indistinguishable from the
unavailable-clipboard result. -/
theorem clipboardText_never_fails (os : ClipboardOS)
    (h : os.openOk = false ∨ os.dataPtr = none ∨
      ∃ mem, os.dataPtr = some (0 :: mem)) :
    ClipboardText os = "" ∧ ClipboardText os = ClipboardText ⟨false, none⟩ := by
  have he : ClipboardText (⟨false, none⟩ : ClipboardOS) = "" := rfl
  rcases h with h | h | ⟨mem, h⟩
  · constructor <;> simp [ClipboardText, h, he]
  · rcases hopen : os.openOk <;>
      constructor <;> simp [ClipboardText, h, hopen, he]
  · rcases hopen : os.openOk <;>
      constructor <;>
        simp [ClipboardText, h, hopen, he, List.takeWhile, utf16Decode,
          String.mk]

theorem clipboardText_never_fails_witness :
    ((⟨true, some [0, 65]⟩ : ClipboardOS).openOk = false ∨
      (⟨true, some [0, 65]⟩ : ClipboardOS).dataPtr = none ∨
      ∃ mem, (⟨true, some [0, 65]⟩ : ClipboardOS).dataPtr =
        some (0 :: mem)) ∧
    ClipboardText ⟨true, some [0, 65]⟩ = "" :=
  ⟨Or.inr (Or.inr ⟨[65], rfl⟩),
    (clipboardText_never_fails ⟨true, some [0, 65]⟩
      (Or.inr (Or.inr ⟨[65], rfl⟩))).1⟩

/-- C9: for the empty string, `Type` and `TypeWithDelay` return nil, submit
no batch to `SendInput`, and sleep zero times. -/
theorem type_empty_string (accept : Nat → Bool) (toScanCode : Nat → Nat)
    (delay : Nat) :
    Type' accept toScanCode [] = ([], 0, none) ∧
    TypeWithDelay accept toScanCode [] delay = ([], 0, none) :=
  ⟨rfl, rfl⟩

/-- C10: `SetClipboardText` has no error result, and when the clipboard
cannot be opened it performs no clipboard operation at all. -/
theorem setClipboardText_silent_on_failure (text : List Char) :
    SetClipboardText false text = [] := rfl

theorem typeLoop_blocked (accept : Nat → Bool) (toScanCode : Nat → Nat) :
    ∀ (cs : List Char) (i k : Nat), i < cs.length →
      (∀ j, j < i → accept (k + j) = true) → accept (k + i) = false →
      typeLoop accept toScanCode cs k =
        ((cs.take (i + 1)).map (charBatchFor toScanCode), i,
          some Err.blocked) := by
  intro cs
  induction cs with
  | nil => intro i k hi _ _; exact absurd hi (by simp)
  | cons c rest ih =>
    intro i k hi hok hfail
    match i with
    | 0 =>
      have h0 : accept k = false := by simpa using hfail
      simp [typeLoop, h0]
    | i + 1 =>
      have h0 : accept k = true := by
        have := hok 0 (Nat.succ_pos i)
        simpa using this
      have hrec := ih i (k + 1) (by simpa using hi)
        (fun j hj => by
          have := hok (j + 1) (by omega)
          simpa [Nat.add_assoc, Nat.add_comm 1 j] using this)
        (by
          have : k + 1 + i = k + (i + 1) := by omega
          rw [this]; exact hfail)
      simp [typeLoop, h0, hrec]

/-- C3: if the k-th `SendInput` call of a `TypeWithDelay` run — the call for
the character at position k of the normalized input — reports zero accepted
events, the call returns `ErrBlocked` at once: the submitted batches are
exactly those of the first k+1 characters, and only the k sleeps of the
already-completed characters have happened. -/
theorem typeWithDelay_blocked_halts (accept : Nat → Bool)
    (toScanCode : Nat → Nat) (s : List Char) (delay i : Nat)
    (hi : i < (normalizeLineBreaks s).length)
    (hok : ∀ j, j < i → accept j = true) (hfail : accept i = false) :
    TypeWithDelay accept toScanCode s delay =
      (((normalizeLineBreaks s).take (i + 1)).map (charBatchFor toScanCode),
        i, some Err.blocked) := by
  have h := typeLoop_blocked accept toScanCode (normalizeLineBreaks s) i 0 hi
    (fun j hj => by simpa using hok j hj) (by simpa using hfail)
  simpa [TypeWithDelay] using h

theorem typeWithDelay_blocked_halts_witness :
    (0 < (normalizeLineBreaks ['a']).length ∧ (fun _ : Nat => false) 0 = false) ∧
    TypeWithDelay (fun _ => false) id ['a'] 1 =
      ([charBatchFor id 'a'], 0, some Err.blocked) :=
  ⟨⟨by decide, rfl⟩, by
    have h := typeWithDelay_blocked_halts (fun _ => false) id ['a'] 1 0
      (by decide) (fun j hj => absurd hj (Nat.not_lt_zero j)) rfl
    simpa [normalizeLineBreaks, replaceCRLF, replaceLF] using h⟩

theorem replaceCRLF_append :
    ∀ (a b : List Char), a.getLast? ≠ some '\r' →
      replaceCRLF (a ++ b) = replaceCRLF a ++ replaceCRLF b
  | [], _, _ => by simp [replaceCRLF]
  | [c], b, ha => by
    have hc : c ≠ '\r' := by simpa using ha
    match b with
    | [] => simp [replaceCRLF]
    | d :: b2 =>
      have hcd : ¬(c = '\r' ∧ d = '\n') := fun h => hc h.1
      simp [replaceCRLF, hcd]
  | c1 :: c2 :: rest, b, ha => by
    have ha2 : (c2 :: rest).getLast? ≠ some '\r' := by
      rw [List.getLast?_cons_cons] at ha; exact ha
    by_cases h : c1 = '\r' ∧ c2 = '\n'
    · obtain ⟨h1, h2⟩ := h
      subst h1; subst h2
      have harest : rest.getLast? ≠ some '\r' := by
        match rest with
        | [] => simp
        | r :: rest2 =>
          rw [List.getLast?_cons_cons] at ha2; exact ha2
      simp [replaceCRLF, replaceCRLF_append rest b harest]
    · have hrec := replaceCRLF_append (c2 :: rest) b ha2
      simp only [List.cons_append] at hrec
      simp only [List.cons_append, replaceCRLF, if_neg h, List.append_eq,
        hrec]

theorem replaceCRLF_crlf_cons (b : List Char) :
    replaceCRLF ('\r' :: '\n' :: b) = '\r' :: replaceCRLF b := by
  simp [replaceCRLF]

theorem replaceCRLF_lf_cons (b : List Char) :
    replaceCRLF ('\n' :: b) = '\n' :: replaceCRLF b := by
  match b with
  | [] => rfl
  | d :: b2 =>
    have h : ¬('\n' = '\r' ∧ d = '\n') := fun h => by
      exact absurd h.1 (by decide)
    simp [replaceCRLF, h]

theorem replaceCRLF_cr_cons (b : List Char) (hb : b.head? ≠ some '\n') :
    replaceCRLF ('\r' :: b) = '\r' :: replaceCRLF b := by
  match b with
  | [] => rfl
  | d :: b2 =>
    have hd : d ≠ '\n' := by simpa using hb
    have h : ¬('\r' = '\r' ∧ d = '\n') := fun h => hd h.2
    simp [replaceCRLF, h, hd]

theorem replaceLF_append (x y : List Char) :
    replaceLF (x ++ y) = replaceLF x ++ replaceLF y := by
  simp [replaceLF]

theorem normalize_segments (a b : List Char) (ha : a.getLast? ≠ some '\r')
    (hb : b.head? ≠ some '\n') :
    normalizeLineBreaks (a ++ '\r' :: '\n' :: b) =
      normalizeLineBreaks a ++ '\r' :: normalizeLineBreaks b ∧
    normalizeLineBreaks (a ++ '\n' :: b) =
      normalizeLineBreaks a ++ '\r' :: normalizeLineBreaks b ∧
    normalizeLineBreaks (a ++ '\r' :: b) =
      normalizeLineBreaks a ++ '\r' :: normalizeLineBreaks b := by
  refine ⟨?_, ?_, ?_⟩
  · rw [normalizeLineBreaks, replaceCRLF_append a _ ha, replaceCRLF_crlf_cons,
      replaceLF_append]
    simp [normalizeLineBreaks, replaceLF]
  · rw [normalizeLineBreaks, replaceCRLF_append a _ ha, replaceCRLF_lf_cons,
      replaceLF_append]
    simp [normalizeLineBreaks, replaceLF]
  · rw [normalizeLineBreaks, replaceCRLF_append a _ ha,
      replaceCRLF_cr_cons b hb, replaceLF_append]
    simp [normalizeLineBreaks, replaceLF]

/-- C4 counterexample: for a = "\r" and b = "", the inputs a+"\r\n"+b and
a+"\n"+b do not normalize to the same representation ("\r\r\n" normalizes to
two carriage returns, "\r\n" to one), and `TypeWithDelay` produces different
event sequences for them. -/
theorem linebreak_normalization_claim_false :
    normalizeLineBreaks (['\r'] ++ ['\r', '\n'] ++ []) ≠
      normalizeLineBreaks (['\r'] ++ ['\n'] ++ []) ∧
    TypeWithDelay (fun _ => true) id (['\r'] ++ ['\r', '\n'] ++ []) 1 ≠
      TypeWithDelay (fun _ => true) id (['\r'] ++ ['\n'] ++ []) 1 := by
  decide

/-- C4 (amended): provided a does not end with a carriage return and b does
not start with a line feed, the inputs a+"\r\n"+b, a+"\n"+b and a+"\r"+b all
normalize to the same internal representation and `TypeWithDelay` produces
identical outputs for all three (the line break becoming one Enter
keypress). The claim as frozen fails when the inserted line break merges
with a CR ending a or an LF starting b. -/
theorem linebreak_normalization_amended (a b : List Char)
    (accept : Nat → Bool) (toScanCode : Nat → Nat) (delay : Nat)
    (ha : a.getLast? ≠ some '\r') (hb : b.head? ≠ some '\n') :
    normalizeLineBreaks (a ++ '\r' :: '\n' :: b) =
      normalizeLineBreaks (a ++ '\r' :: b) ∧
    normalizeLineBreaks (a ++ '\n' :: b) =
      normalizeLineBreaks (a ++ '\r' :: b) ∧
    TypeWithDelay accept toScanCode (a ++ '\r' :: '\n' :: b) delay =
      TypeWithDelay accept toScanCode (a ++ '\r' :: b) delay ∧
    TypeWithDelay accept toScanCode (a ++ '\n' :: b) delay =
      TypeWithDelay accept toScanCode (a ++ '\r' :: b) delay := by
  obtain ⟨h1, h2, h3⟩ := normalize_segments a b ha hb
  refine ⟨by rw [h1, h3], by rw [h2, h3], ?_, ?_⟩
  · rw [TypeWithDelay, TypeWithDelay, h1, h3]
  · rw [TypeWithDelay, TypeWithDelay, h2, h3]

theorem linebreak_normalization_amended_witness :
    ((['x'].getLast? ≠ some '\r') ∧ (['y'].head? ≠ some '\n')) ∧
    normalizeLineBreaks (['x'] ++ '\r' :: '\n' :: ['y']) =
      normalizeLineBreaks (['x'] ++ '\r' :: ['y']) :=
  ⟨⟨by decide, by decide⟩,
    (linebreak_normalization_amended ['x'] ['y'] (fun _ => true) id 1
      (by decide) (by decide)).1⟩

theorem typeLoop_shift (toScanCode : Nat → Nat) :
    ∀ (cs : List Char) (accept : Nat → Bool) (k : Nat),
      typeLoop accept toScanCode cs k =
        typeLoop (fun j => accept (k + j)) toScanCode cs 0 := by
  intro cs
  induction cs with
  | nil => intro accept k; rfl
  | cons c rest ih =>
    intro accept k
    have h0 : accept (k + 0) = accept k := by rw [Nat.add_zero]
    by_cases h : accept k = true
    · simp only [typeLoop, h, h0, if_true]
      rw [ih accept (k + 1), ih (fun j => accept (k + j)) 1]
      have harg : (fun j => accept (k + 1 + j)) =
          (fun j => accept (k + (1 + j))) := by
        funext j; rw [Nat.add_assoc]
      rw [harg]
    · have hf : accept k = false := by
        cases hc : accept k
        · rfl
        · exact absurd hc h
      simp only [typeLoop, hf, h0, if_false, Bool.false_eq_true]

/-- C8: the event sequences `TypeWithDelay` composes are a pure function of
the input string and the per-call `SendInput` responses: a later run whose
calls start at index k of the response stream, seeing the same responses,
yields a structurally identical batch list, sleep count and result — no
mutable state is carried across calls. -/
theorem type_composition_deterministic (accept : Nat → Bool)
    (toScanCode : Nat → Nat) (s : List Char) (delay k : Nat)
    (h : ∀ j, accept (k + j) = accept j) :
    typeLoop accept toScanCode (normalizeLineBreaks s) k =
      TypeWithDelay accept toScanCode s delay := by
  rw [TypeWithDelay, typeLoop_shift]
  congr 1
  funext j
  exact h j

theorem type_composition_deterministic_witness :
    (∀ j, (fun _ : Nat => true) (7 + j) = (fun _ : Nat => true) j) ∧
    typeLoop (fun _ => true) id (normalizeLineBreaks ['a']) 7 =
      TypeWithDelay (fun _ => true) id ['a'] 1 :=
  ⟨fun _ => rfl,
    type_composition_deterministic (fun _ => true) id ['a'] 1 7
      (fun _ => rfl)⟩
